import Mathlib

/-!
# EthernetTap (node/EthernetTap.hpp): address reconciliation

A shallow embedding of the inline members of `class EthernetTap`
(`mac`, `mtu`, `ips`, `setIps`) together with the entities they rely on.

* `std::set<T>` is a strictly ascending list (`StdSet`), iterated front to back.
* The members `addIP` and `removeIP` are only declared in the header; they are
  a parameter (`Backend`) that may inspect the whole object and rewrite its
  non-`const` part in any way.
* The calls that `setIps` makes are observed by running it against
  `Backend.logged`, a backend that records each call in the platform state.
-/

namespace ZeroTier

/-! ## `std::set` -/

/-- A `std::set<α>`: its elements in strictly ascending order. -/
structure StdSet (α : Type) [LT α] where
  /-- The elements in iteration order. -/
  elems : List α
  /-- Iteration order is strictly ascending (hence duplicate free). -/
  sorted : elems.Sorted (· < ·)

namespace StdSet

variable {α : Type} [LinearOrder α]

instance : Membership α (StdSet α) := ⟨fun s x => x ∈ s.elems⟩

instance (x : α) (s : StdSet α) : Decidable (x ∈ s) :=
  inferInstanceAs (Decidable (x ∈ s.elems))

/-- The empty set (a default constructed `std::set`). -/
def empty : StdSet α := ⟨[], List.sorted_nil⟩

/-- Member `std::set::count`: 1 when present, 0 otherwise. -/
def count (s : StdSet α) (x : α) : Nat := if x ∈ s.elems then 1 else 0

/-- Insertion of `x` at its place in an ascending list; no change when present. -/
def insertAsc (x : α) : List α → List α
  | [] => [x]
  | b :: l => if x < b then x :: b :: l else if x = b then b :: l else b :: insertAsc x l

theorem mem_insertAsc (x y : α) (l : List α) : y ∈ insertAsc x l ↔ y = x ∨ y ∈ l := by
  induction l with
  | nil => simp [insertAsc]
  | cons b l ih =>
    unfold insertAsc
    split_ifs with h1 h2
    · simp
    · subst h2; simp
    · simp [ih]; tauto

theorem sorted_insertAsc (x : α) (l : List α) (h : l.Sorted (· < ·)) :
    (insertAsc x l).Sorted (· < ·) := by
  induction l with
  | nil => simp [insertAsc]
  | cons b l ih =>
    have hb := List.rel_of_sorted_cons h
    have hl := List.Sorted.of_cons h
    unfold insertAsc
    split_ifs with h1 h2
    · refine List.sorted_cons.2 ⟨fun c hc => ?_, h⟩
      rcases List.mem_cons.1 hc with rfl | hc
      · exact h1
      · exact lt_trans h1 (hb c hc)
    · exact h
    · refine List.sorted_cons.2 ⟨fun c hc => ?_, ih hl⟩
      rcases (mem_insertAsc x c l).1 hc with rfl | hc
      · exact lt_of_le_of_ne (not_lt.1 h1) (Ne.symm h2)
      · exact hb c hc

/-- Member `std::set::insert`. -/
def insert (s : StdSet α) (x : α) : StdSet α :=
  ⟨insertAsc x s.elems, sorted_insertAsc x s.elems s.sorted⟩

/-- Member `std::set::erase`, by value. -/
def erase (s : StdSet α) (x : α) : StdSet α :=
  ⟨s.elems.erase x, s.sorted.sublist (List.erase_sublist x s.elems)⟩

/-- Build a set from any list by repeated insertion. -/
def ofList (l : List α) : StdSet α := l.foldl insert empty

/-- The elements that satisfy `p`. -/
def filter (p : α → Bool) (s : StdSet α) : StdSet α :=
  ⟨s.elems.filter p, s.sorted.filter p⟩

theorem ext_elems {s t : StdSet α} (h : s.elems = t.elems) : s = t := by
  cases s; cases t; cases h; rfl

instance : DecidableEq (StdSet α) := fun s t =>
  decidable_of_iff (s.elems = t.elems) ⟨ext_elems, fun h => by rw [h]⟩

end StdSet

/-! ## Value types declared in other headers -/

/-- Modelled from the spec: class `MAC` (MAC.hpp is not among the sources).
"six octets, compared and hashed as a 48-bit value"; `value` is that 48-bit
number. -/
structure MAC where
  /-- The six octets as one 48-bit number, first octet most significant. -/
  value : Nat
deriving DecidableEq, Repr

/-- Modelled from the spec: class `InetAddress` (InetAddress.hpp is not among
the sources). "an IP (v4 or v6) paired with a prefix length. Equality is
structural over both fields. Ordering is defined so that a set can be diffed
deterministically." The header stores the netmask in the port field. -/
structure InetAddress where
  /-- Address family: `false` for IPv4, `true` for IPv6. -/
  v6 : Bool
  /-- The address as a number (32 or 128 bits). -/
  addr : Nat
  /-- Prefix length (the netmask, kept in the port field). -/
  bits : Nat
deriving DecidableEq, Repr

/-- Sort key of an address: family, then address, then prefix length. -/
def InetAddress.sortKey (a : InetAddress) : Bool ×ₗ (Nat ×ₗ Nat) :=
  toLex (a.v6, toLex (a.addr, a.bits))

theorem inetAddress_sortKey_injective : Function.Injective InetAddress.sortKey := by
  intro a b h
  cases a; cases b
  simp [InetAddress.sortKey] at h
  simp [h]

instance : LinearOrder InetAddress :=
  LinearOrder.lift' InetAddress.sortKey inetAddress_sortKey_injective

/-- Whether two tuples name the same address (family and address equal),
whatever their netmasks. -/
def InetAddress.sameAddress (a b : InetAddress) : Bool :=
  a.v6 == b.v6 && a.addr == b.addr

/-- Modelled from the spec: class `MulticastGroup` (MulticastGroup.hpp is not
among the sources). "a destination MAC plus an Application Defined Identifier
(32-bit scalar ...)". -/
structure MulticastGroup where
  /-- Destination MAC. -/
  mac : MAC
  /-- Application defined identifier. -/
  adi : Nat
deriving DecidableEq, Repr

/-- Sort key of a multicast group: MAC, then ADI. -/
def MulticastGroup.groupKey (g : MulticastGroup) : Nat ×ₗ Nat := toLex (g.mac.value, g.adi)

theorem multicastGroup_groupKey_injective : Function.Injective MulticastGroup.groupKey := by
  intro a b h
  rcases a with ⟨⟨ma⟩, aa⟩
  rcases b with ⟨⟨mb⟩, ab⟩
  simp [MulticastGroup.groupKey] at h
  simp [h]

instance : LinearOrder MulticastGroup :=
  LinearOrder.lift' MulticastGroup.groupKey multicastGroup_groupKey_injective

/-! ## The object -/

/-- The non-`const` data members of `EthernetTap`. `platform` stands for
everything the header keeps per operating system (`_dev`, `_fd`, `_tap`, the
handler, the thread, ...) and for the state of the host that the out-of-line
members talk to. -/
structure Vars (β : Type) where
  /-- Member `std::set<InetAddress> _ips` (guarded by `_ips_m`). -/
  _ips : StdSet InetAddress
  /-- Member `bool _dhcp`. -/
  _dhcp : Bool
  /-- Member `bool _dhcp6`. -/
  _dhcp6 : Bool
  /-- Platform members and host state. -/
  platform : β

/-- An `EthernetTap` object: the two `const` members and the mutable rest. -/
structure EthernetTap (β : Type) where
  /-- Member `const MAC _mac`. -/
  _mac : MAC
  /-- Member `const unsigned int _mtu`. -/
  _mtu : Nat
  /-- All members that a member function is able to assign. -/
  vars : Vars β

/-- The out-of-line members `addIP` and `removeIP` (declared at lines 143 and
151, defined elsewhere). Each sees the whole object, returns its `bool` and the
new values of the non-`const` members. -/
structure Backend (β : Type) where
  /-- Member `bool addIP(const InetAddress &ip)`. -/
  addIP : EthernetTap β → InetAddress → Bool × Vars β
  /-- Member `bool removeIP(const InetAddress &ip)`. -/
  removeIP : EthernetTap β → InetAddress → Bool × Vars β

namespace EthernetTap

variable {β : Type}

/-- Member `inline const MAC &mac() const throw() { return _mac; }` -/
def mac (t : EthernetTap β) : MAC := t._mac

/-- Member `inline unsigned int mtu() const throw() { return _mtu; }` -/
def mtu (t : EthernetTap β) : Nat := t._mtu

/-- Member `inline std::set<InetAddress> ips() const { Mutex::Lock _l(_ips_m); return _ips; }` -/
def ips (t : EthernetTap β) : StdSet InetAddress := t.vars._ips

/-- A call of the member `addIP`: result and object afterwards. -/
def addIP (B : Backend β) (t : EthernetTap β) (ip : InetAddress) : Bool × EthernetTap β :=
  ((B.addIP t ip).1, { t with vars := (B.addIP t ip).2 })

/-- A call of the member `removeIP`: result and object afterwards. -/
def removeIP (B : Backend β) (t : EthernetTap β) (ip : InetAddress) : Bool × EthernetTap β :=
  ((B.removeIP t ip).1, { t with vars := (B.removeIP t ip).2 })

/-- The first loop of `setIps`:
`for(i = allIps.begin(); i != allIps.end(); ++i) addIP(*i);` -/
def addPass (B : Backend β) (allIps : StdSet InetAddress) (t : EthernetTap β) : EthernetTap β :=
  allIps.elems.foldl (fun t i => (t.addIP B i).2) t

/-- The second loop of `setIps`, over the copy `myIps`:
`for(i = myIps.begin(); i != myIps.end(); ++i) { if (!allIps.count(*i)) removeIP(*i); }` -/
def removePass (B : Backend β) (allIps myIps : StdSet InetAddress) (t : EthernetTap β) :
    EthernetTap β :=
  myIps.elems.foldl (fun t i => if allIps.count i = 0 then (t.removeIP B i).2 else t) t

/-- Member `inline void setIps(const std::set<InetAddress> &allIps)`: the first loop,
the copy `std::set<InetAddress> myIps(ips())`, the second loop. -/
def setIps (B : Backend β) (allIps : StdSet InetAddress) (t : EthernetTap β) : EthernetTap β :=
  let t1 := addPass B allIps t
  let myIps := t1.ips
  removePass B allIps myIps t1

/-- Modelled from the spec: the constructor `EthernetTap::EthernetTap` (declared
at line 81, body not among the sources). Section 4.5: "Opens the backend; fails
with `Unavailable` if provisioning fails. Installs MAC and MTU." `openDevice`
is the platform's provisioning; DHCP is "disabled by default" and `_ips` starts
as a default constructed set. -/
def construct (openDevice : String → MAC → Nat → Option β) (tag : String) (mac : MAC)
    (mtu : Nat) : Except String (EthernetTap β) :=
  match openDevice tag mac mtu with
  | none => .error "Unavailable"
  | some dev =>
    .ok { _mac := mac, _mtu := mtu,
          vars := { _ips := StdSet.empty, _dhcp := false, _dhcp6 := false, platform := dev } }

end EthernetTap

/-- A call of a public member on a constructed object. -/
inductive Call where
  /-- Call `setIps(allIps)`. -/
  | setIps (allIps : StdSet InetAddress)
  /-- Call `ips()`. -/
  | ips
  /-- Call `addIP(ip)`. -/
  | addIP (ip : InetAddress)
  /-- Call `removeIP(ip)`. -/
  | removeIP (ip : InetAddress)
  /-- Call `mac()`. -/
  | mac
  /-- Call `mtu()`. -/
  | mtu

namespace EthernetTap

variable {β : Type}

/-- The object after one call; the `const` members `ips`, `mac`, `mtu` leave
it as it is. -/
def step (B : Backend β) (t : EthernetTap β) : Call → EthernetTap β
  | .setIps allIps => t.setIps B allIps
  | .ips => t
  | .addIP ip => (t.addIP B ip).2
  | .removeIP ip => (t.removeIP B ip).2
  | .mac => t
  | .mtu => t

/-- The object after a sequence of calls. -/
def run (B : Backend β) (t : EthernetTap β) (calls : List Call) : EthernetTap β :=
  calls.foldl (step B) t

end EthernetTap

/-! ## Observing the calls made on `addIP` / `removeIP` -/

/-- One call of an address member. -/
inductive Op where
  /-- Call `addIP(ip)`. -/
  | add (ip : InetAddress)
  /-- Call `removeIP(ip)`. -/
  | remove (ip : InetAddress)
deriving DecidableEq, Repr

/-- Whether the call is an `addIP`. -/
def Op.isAdd : Op → Bool
  | .add _ => true
  | .remove _ => false

/-- Drop the call record from the mutable members. -/
def Vars.dropLog {β : Type} (v : Vars (β × List Op)) : Vars β :=
  { _ips := v._ips, _dhcp := v._dhcp, _dhcp6 := v._dhcp6, platform := v.platform.1 }

/-- Attach a call record to the mutable members. -/
def Vars.attachLog {β : Type} (v : Vars β) (log : List Op) : Vars (β × List Op) :=
  { _ips := v._ips, _dhcp := v._dhcp, _dhcp6 := v._dhcp6, platform := (v.platform, log) }

/-- Drop the call record from an object. -/
def EthernetTap.unlogged {β : Type} (t : EthernetTap (β × List Op)) : EthernetTap β :=
  { _mac := t._mac, _mtu := t._mtu, vars := t.vars.dropLog }

/-- Attach a call record to an object. -/
def EthernetTap.withLog {β : Type} (t : EthernetTap β) (log : List Op) :
    EthernetTap (β × List Op) :=
  { _mac := t._mac, _mtu := t._mtu, vars := t.vars.attachLog log }

/-- The call record of an object. -/
def EthernetTap.log {β : Type} (t : EthernetTap (β × List Op)) : List Op := t.vars.platform.2

/-- The backend `B`, recording every call at the end of the call record and
otherwise behaving as `B` does on the object without the record. -/
def Backend.logged {β : Type} (B : Backend β) : Backend (β × List Op) where
  addIP t ip :=
    ((B.addIP t.unlogged ip).1, (B.addIP t.unlogged ip).2.attachLog (t.log ++ [Op.add ip]))
  removeIP t ip :=
    ((B.removeIP t.unlogged ip).1, (B.removeIP t.unlogged ip).2.attachLog (t.log ++ [Op.remove ip]))

/-- The calls of `addIP` and `removeIP` that one `setIps(allIps)` makes, in order. -/
def EthernetTap.setIpsCalls {β : Type} (B : Backend β) (allIps : StdSet InetAddress)
    (t : EthernetTap β) : List Op :=
  ((t.withLog []).setIps B.logged allIps).log

/-- Perform the recorded calls one after the other. -/
def EthernetTap.replay {β : Type} (B : Backend β) (t : EthernetTap β) (ops : List Op) :
    EthernetTap β :=
  ops.foldl (fun t op =>
    match op with
    | .add ip => (t.addIP B ip).2
    | .remove ip => (t.removeIP B ip).2) t

/-! ## Backend behaviours -/

namespace Backend

variable {β : Type}

/-- A backend whose verdict on a call depends on the call and its argument
alone: `addIP(x)` inserts `x` when `accAdd x`, `removeIP(x)` erases `x` when
`accRemove x`, and a rejected call changes nothing. The `bool` follows
section 4.2: success and a change of the set. -/
def deciding (β : Type) (accAdd accRemove : InetAddress → Bool) : Backend β where
  addIP t ip :=
    if accAdd ip then (decide (ip ∉ t.ips), { t.vars with _ips := t.vars._ips.insert ip })
    else (false, t.vars)
  removeIP t ip :=
    if accRemove ip then (decide (ip ∈ t.ips), { t.vars with _ips := t.vars._ips.erase ip })
    else (false, t.vars)

/-- The backend that accepts every call. -/
def ideal (β : Type) : Backend β := deciding β (fun _ => true) (fun _ => true)

/-- A backend that sets an address up afresh on every `addIP(x)`: the tuple
`x` is taken off the interface and configured again, and stays off when the
host refuses (`accAdd x = false`). `removeIP(x)` erases `x`. No call touches
another tuple. -/
def reasserting (β : Type) (accAdd : InetAddress → Bool) : Backend β where
  addIP t ip :=
    if accAdd ip then (true, { t.vars with _ips := (t.vars._ips.erase ip).insert ip })
    else (false, { t.vars with _ips := t.vars._ips.erase ip })
  removeIP t ip := (decide (ip ∈ t.ips), { t.vars with _ips := t.vars._ips.erase ip })

/-- A backend that keeps one netmask per address: `addIP(x)` drops every
declared tuple that has the address of `x`, then inserts `x`; `removeIP(x)`
erases `x`. -/
def replacing (β : Type) : Backend β where
  addIP t ip :=
    (decide (ip ∉ t.ips),
      { t.vars with _ips := (t.vars._ips.filter (fun e => !(e.sameAddress ip))).insert ip })
  removeIP t ip := (decide (ip ∈ t.ips), { t.vars with _ips := t.vars._ips.erase ip })

/-- Every call is accepted: `addIP(x)` leaves `x` declared, `removeIP(x)`
leaves it undeclared, and neither changes whether another address is declared. -/
def AcceptsAll (B : Backend β) : Prop :=
  ∀ (t : EthernetTap β) (x y : InetAddress),
    (y ∈ (t.addIP B x).2.ips ↔ y = x ∨ y ∈ t.ips) ∧
    (y ∈ (t.removeIP B x).2.ips ↔ y ≠ x ∧ y ∈ t.ips)

/-- Both `addIP(x)` and `removeIP(x)` change membership of no address but `x`. -/
def OwnArgumentOnly (B : Backend β) : Prop :=
  ∀ (t : EthernetTap β) (x y : InetAddress), y ≠ x →
    (y ∈ (t.addIP B x).2.ips ↔ y ∈ t.ips) ∧ (y ∈ (t.removeIP B x).2.ips ↔ y ∈ t.ips)

/-- Every `removeIP(x)` is carried out: `x` is undeclared afterwards and
nothing that was undeclared becomes declared. -/
def RemovesAccepted (B : Backend β) : Prop :=
  ∀ (t : EthernetTap β) (x y : InetAddress),
    y ∈ (t.removeIP B x).2.ips → y ≠ x ∧ y ∈ t.ips

/-- The backend accepts `addIP(x)`: `x` is declared after the call. -/
def AcceptsAdd (B : Backend β) (x : InetAddress) : Prop :=
  ∀ t : EthernetTap β, x ∈ (t.addIP B x).2.ips

/-- Calls on other addresses never undeclare `x`. -/
def OthersKeep (B : Backend β) (x : InetAddress) : Prop :=
  ∀ (t : EthernetTap β) (y : InetAddress), y ≠ x → x ∈ t.ips →
    x ∈ (t.addIP B y).2.ips ∧ x ∈ (t.removeIP B y).2.ips

/-- The declared set after a call is decided by the call and its argument:
an accepted `addIP(x)` inserts `x`, an accepted `removeIP(x)` erases `x`, a
rejected call leaves the set as it is. -/
def Decides (B : Backend β) (accAdd accRemove : InetAddress → Bool) : Prop :=
  ∀ (t : EthernetTap β) (x : InetAddress),
    (t.addIP B x).2.ips = (if accAdd x then t.ips.insert x else t.ips) ∧
    (t.removeIP B x).2.ips = (if accRemove x then t.ips.erase x else t.ips)

end Backend

/-! ## Multicast groups -/

/-- The blind wildcard group: MAC `ff:ff:ff:ff:ff:ff`, ADI 0. -/
def wildcardGroup : MulticastGroup := ⟨⟨0xffffffffffff⟩, 0⟩

/-- Ethernet MAC of an IPv4 multicast group: `01:00:5e` and the low 23 bits. -/
def ipv4GroupMac (group : Nat) : MAC := ⟨0x01005e000000 + group % 2 ^ 23⟩

/-- Ethernet MAC of an IPv6 multicast group: `33:33` and the low 32 bits. -/
def ipv6GroupMac (group : Nat) : MAC := ⟨0x333300000000 + group % 2 ^ 32⟩

/-- Modelled from the spec: `EthernetTap::updateMulticastGroups` (declared at
line 213, body not among the sources). Section 4.3: `refresh(target_set)`
"replaces `target_set`'s contents with the observer's canonical set; returns
true if contents differ", the canonical set being the "union of (a) the
broadcast wildcard; (b) for each IPv4 group the kernel reports bound to this
interface, the derived Ethernet multicast MAC ...; (c) for each IPv6 group, the
derived `33:33` + low-32-bits MAC", each with ADI 0. `v4` and `v6` are the
groups the kernel reports. Returns the `bool` and the set left in `groups`. -/
def updateMulticastGroups (v4 v6 : List Nat) (groups : StdSet MulticastGroup) :
    Bool × StdSet MulticastGroup :=
  let newGroups : StdSet MulticastGroup :=
    StdSet.ofList (wildcardGroup ::
      (v4.map (fun g => ⟨ipv4GroupMac g, 0⟩) ++ v6.map (fun g => ⟨ipv6GroupMac g, 0⟩)))
  (decide (newGroups.elems ≠ groups.elems), newGroups)

/-! ## Addresses of scenario S2 -/

/-- The address `10.0.0.2/24`. -/
def ip_10_0_0_2 : InetAddress := ⟨false, 0x0a000002, 24⟩

/-- The address `10.0.0.3/24`. -/
def ip_10_0_0_3 : InetAddress := ⟨false, 0x0a000003, 24⟩

/-- The address `10.0.0.2/16`: `10.0.0.2` under another mask. -/
def ip_10_0_0_2_m16 : InetAddress := ⟨false, 0x0a000002, 16⟩

/-- The address `fd00::2/64`. -/
def ip_fd00_2 : InetAddress := ⟨true, 0xfd000000000000000000000000000002, 64⟩

/-- The set `{10.0.0.2/24, fd00::2/64}`. -/
def s2First : StdSet InetAddress := StdSet.ofList [ip_10_0_0_2, ip_fd00_2]

/-- The set `{10.0.0.3/24, fd00::2/64}`. -/
def s2Second : StdSet InetAddress := StdSet.ofList [ip_10_0_0_3, ip_fd00_2]

/-- An object with no platform state and the given declared addresses. -/
def tapWith (ips : StdSet InetAddress) : EthernetTap Unit :=
  { _mac := ⟨0x021122334455⟩, _mtu := 1500,
    vars := { _ips := ips, _dhcp := false, _dhcp6 := false, platform := () } }

/-! ## Facts about `StdSet` -/

namespace StdSet

variable {α : Type} [LinearOrder α]

theorem mem_def (s : StdSet α) (x : α) : x ∈ s ↔ x ∈ s.elems := Iff.rfl

theorem nodup (s : StdSet α) : s.elems.Nodup := s.sorted.nodup

theorem ext {s t : StdSet α} (h : ∀ x, x ∈ s ↔ x ∈ t) : s = t :=
  ext_elems (List.eq_of_perm_of_sorted
    ((List.perm_ext_iff_of_nodup s.nodup t.nodup).2 h) s.sorted t.sorted)

theorem not_mem_empty (x : α) : x ∉ (empty : StdSet α) := by
  simp [mem_def, empty]

theorem mem_insert (s : StdSet α) (x y : α) : y ∈ s.insert x ↔ y = x ∨ y ∈ s :=
  mem_insertAsc x y s.elems

theorem mem_erase (s : StdSet α) (x y : α) : y ∈ s.erase x ↔ y ≠ x ∧ y ∈ s :=
  s.nodup.mem_erase_iff

theorem mem_filter (p : α → Bool) (s : StdSet α) (y : α) :
    y ∈ s.filter p ↔ y ∈ s ∧ p y = true := by
  simp [mem_def, filter]

theorem count_eq_zero (s : StdSet α) (x : α) : s.count x = 0 ↔ x ∉ s := by
  unfold count
  split_ifs with h
  · simp [mem_def, h]
  · simp [mem_def, h]

theorem mem_foldl_insert (l : List α) (s : StdSet α) (y : α) :
    y ∈ l.foldl insert s ↔ y ∈ l ∨ y ∈ s := by
  induction l generalizing s with
  | nil => simp
  | cons a l ih =>
    rw [List.foldl_cons, ih, mem_insert]
    simp only [List.mem_cons]
    tauto

theorem mem_ofList (l : List α) (y : α) : y ∈ ofList l ↔ y ∈ l := by
  unfold ofList
  rw [mem_foldl_insert]
  simp [not_mem_empty]

end StdSet

/-! ## The recording backend agrees with the backend it records -/

namespace EthernetTap

variable {β : Type}

theorem unlogged_withLog (t : EthernetTap β) (l : List Op) : (t.withLog l).unlogged = t := rfl

theorem log_withLog (t : EthernetTap β) (l : List Op) : (t.withLog l).log = l := rfl

theorem ips_unlogged (tl : EthernetTap (β × List Op)) : tl.unlogged.ips = tl.ips := rfl

theorem logged_addFold (B : Backend β) (l : List InetAddress) (tl : EthernetTap (β × List Op)) :
    (l.foldl (fun t i => (t.addIP B.logged i).2) tl).unlogged
        = l.foldl (fun t i => (t.addIP B i).2) tl.unlogged ∧
      (l.foldl (fun t i => (t.addIP B.logged i).2) tl).log = tl.log ++ l.map Op.add := by
  induction l generalizing tl with
  | nil => simp
  | cons a l ih =>
    simp only [List.foldl_cons, List.map_cons]
    obtain ⟨h1, h2⟩ := ih (tl.addIP B.logged a).2
    refine ⟨h1, ?_⟩
    rw [h2]
    show (tl.log ++ [Op.add a]) ++ List.map Op.add l = _
    simp

theorem logged_removeFold (B : Backend β) (allIps : StdSet InetAddress) (l : List InetAddress)
    (tl : EthernetTap (β × List Op)) :
    (l.foldl (fun t i => if allIps.count i = 0 then (t.removeIP B.logged i).2 else t) tl).unlogged
        = l.foldl (fun t i => if allIps.count i = 0 then (t.removeIP B i).2 else t) tl.unlogged ∧
      (l.foldl (fun t i => if allIps.count i = 0 then (t.removeIP B.logged i).2 else t) tl).log
        = tl.log ++ (l.filter (fun i => decide (allIps.count i = 0))).map Op.remove := by
  induction l generalizing tl with
  | nil => simp
  | cons a l ih =>
    simp only [List.foldl_cons]
    by_cases h : allIps.count a = 0
    · obtain ⟨h1, h2⟩ := ih (tl.removeIP B.logged a).2
      simp only [h, if_true, List.filter_cons, decide_True, List.map_cons]
      refine ⟨h1, ?_⟩
      rw [h2]
      show (tl.log ++ [Op.remove a]) ++ _ = _
      simp
    · obtain ⟨h1, h2⟩ := ih tl
      simp only [h, if_false, List.filter_cons, decide_False]
      exact ⟨h1, h2⟩

theorem setIps_logged (B : Backend β) (allIps : StdSet InetAddress)
    (tl : EthernetTap (β × List Op)) :
    (tl.setIps B.logged allIps).unlogged = tl.unlogged.setIps B allIps ∧
      (tl.setIps B.logged allIps).log
        = tl.log ++ allIps.elems.map Op.add ++
            ((tl.unlogged.addPass B allIps).ips.elems.filter
              (fun i => decide (allIps.count i = 0))).map Op.remove := by
  have a1 : (tl.addPass B.logged allIps).unlogged = tl.unlogged.addPass B allIps :=
    (logged_addFold B allIps.elems tl).1
  have a2 : (tl.addPass B.logged allIps).log = tl.log ++ allIps.elems.map Op.add :=
    (logged_addFold B allIps.elems tl).2
  obtain ⟨r1, r2⟩ := logged_removeFold B allIps (tl.addPass B.logged allIps).ips.elems
    (tl.addPass B.logged allIps)
  have hips : (tl.addPass B.logged allIps).ips = (tl.unlogged.addPass B allIps).ips := by
    rw [← ips_unlogged]; exact congrArg ips a1
  constructor
  · show (removePass B.logged allIps _ _).unlogged = removePass B allIps _ _
    unfold removePass
    rw [r1, hips, a1]
  · show (removePass B.logged allIps _ _).log = _
    unfold removePass
    rw [r2, hips, a2]

/-- The calls of one `setIps`: an `addIP` for each element of `allIps` in
ascending order, then a `removeIP` for each element of the snapshot taken
after the first loop that `allIps` does not count. -/
theorem setIpsCalls_eq (B : Backend β) (allIps : StdSet InetAddress) (t : EthernetTap β) :
    t.setIpsCalls B allIps
      = allIps.elems.map Op.add ++
          ((t.addPass B allIps).ips.elems.filter
            (fun i => decide (allIps.count i = 0))).map Op.remove := by
  unfold setIpsCalls
  rw [(setIps_logged B allIps (t.withLog [])).2, unlogged_withLog, log_withLog]
  simp

theorem replay_append (B : Backend β) (t : EthernetTap β) (a b : List Op) :
    t.replay B (a ++ b) = (t.replay B a).replay B b := by
  unfold replay
  rw [List.foldl_append]

theorem replay_adds (B : Backend β) (l : List InetAddress) (t : EthernetTap β) :
    t.replay B (l.map Op.add) = l.foldl (fun t i => (t.addIP B i).2) t := by
  induction l generalizing t with
  | nil => rfl
  | cons a l ih => exact ih _

theorem replay_removes (B : Backend β) (allIps : StdSet InetAddress) (l : List InetAddress)
    (t : EthernetTap β) :
    t.replay B ((l.filter (fun i => decide (allIps.count i = 0))).map Op.remove)
      = l.foldl (fun t i => if allIps.count i = 0 then (t.removeIP B i).2 else t) t := by
  induction l generalizing t with
  | nil => rfl
  | cons a l ih =>
    by_cases h : allIps.count a = 0
    · simp only [List.filter_cons, h, decide_True, if_true, List.map_cons, List.foldl_cons]
      exact ih _
    · simp only [List.filter_cons, h, decide_False, if_false, List.foldl_cons]
      exact ih _

theorem setIps_eq_replay (B : Backend β) (allIps : StdSet InetAddress) (t : EthernetTap β) :
    t.setIps B allIps = t.replay B (t.setIpsCalls B allIps) := by
  rw [setIpsCalls_eq, replay_append, replay_adds, replay_removes]
  rfl

end EthernetTap

/-! ## What the two loops do to the declared set -/

namespace EthernetTap

variable {β : Type}

theorem addFold_keeps (B : Backend β) (x : InetAddress)
    (hAdd : ∀ (t : EthernetTap β) (y : InetAddress), x ∈ t.ips → x ∈ (t.addIP B y).2.ips)
    (l : List InetAddress) (t : EthernetTap β) (h : x ∈ t.ips) :
    x ∈ (l.foldl (fun t i => (t.addIP B i).2) t).ips := by
  induction l generalizing t with
  | nil => exact h
  | cons a l ih => exact ih _ (hAdd t a h)

theorem addFold_gets (B : Backend β) (x : InetAddress) (hAcc : B.AcceptsAdd x)
    (hKeep : B.OthersKeep x) (l : List InetAddress) (t : EthernetTap β) (hx : x ∈ l) :
    x ∈ (l.foldl (fun t i => (t.addIP B i).2) t).ips := by
  have hAdd : ∀ (t : EthernetTap β) (y : InetAddress), x ∈ t.ips → x ∈ (t.addIP B y).2.ips := by
    intro t y h
    by_cases hy : y = x
    · subst hy; exact hAcc t
    · exact (hKeep t y hy h).1
  induction l generalizing t with
  | nil => simp at hx
  | cons a l ih =>
    by_cases ha : a = x
    · subst ha
      exact addFold_keeps B a hAdd l _ (hAcc t)
    · have hxl : x ∈ l := by
        rcases List.mem_cons.1 hx with h | h
        · exact absurd h.symm ha
        · exact h
      exact ih _ hxl

theorem removeFold_keeps (B : Backend β) (allIps : StdSet InetAddress) (x : InetAddress)
    (hx : x ∈ allIps)
    (hRem : ∀ (t : EthernetTap β) (y : InetAddress), y ≠ x → x ∈ t.ips →
      x ∈ (t.removeIP B y).2.ips)
    (l : List InetAddress) (t : EthernetTap β) (h : x ∈ t.ips) :
    x ∈ (l.foldl (fun t i => if allIps.count i = 0 then (t.removeIP B i).2 else t) t).ips := by
  induction l generalizing t with
  | nil => exact h
  | cons a l ih =>
    simp only [List.foldl_cons]
    by_cases hc : allIps.count a = 0
    · have hne : a ≠ x := by
        rintro rfl
        exact (StdSet.count_eq_zero allIps a).1 hc hx
      simp only [hc, if_true]
      exact ih _ (hRem t a hne h)
    · simp only [hc, if_false]
      exact ih _ h

theorem addFold_keeps_on (B : Backend β) (x : InetAddress) (l : List InetAddress)
    (hAdd : ∀ (t : EthernetTap β) (y : InetAddress), y ∈ l → x ∈ t.ips →
      x ∈ (t.addIP B y).2.ips)
    (t : EthernetTap β) (h : x ∈ t.ips) :
    x ∈ (l.foldl (fun t i => (t.addIP B i).2) t).ips := by
  induction l generalizing t with
  | nil => exact h
  | cons a l ih =>
    exact ih (fun u y hy hu => hAdd u y (List.mem_cons_of_mem a hy) hu) _
      (hAdd t a (List.mem_cons_self a l) h)

/-- An address declared before `setIps(allIps)` and listed in `allIps` stays
declared when no `addIP` undeclares it and no `removeIP` of another address does. -/
theorem setIps_keeps (B : Backend β) (allIps : StdSet InetAddress) (x : InetAddress)
    (hx : x ∈ allIps)
    (hAdd : ∀ (t : EthernetTap β) (y : InetAddress), x ∈ t.ips → x ∈ (t.addIP B y).2.ips)
    (hRem : ∀ (t : EthernetTap β) (y : InetAddress), y ≠ x → x ∈ t.ips →
      x ∈ (t.removeIP B y).2.ips)
    (t : EthernetTap β) (h : x ∈ t.ips) : x ∈ (t.setIps B allIps).ips :=
  removeFold_keeps B allIps x hx hRem _ _ (addFold_keeps B x hAdd _ t h)

theorem removeFold_subset (B : Backend β) (hR : B.RemovesAccepted)
    (allIps : StdSet InetAddress) (l : List InetAddress) (t : EthernetTap β) (y : InetAddress)
    (h : y ∈ (l.foldl (fun t i => if allIps.count i = 0 then (t.removeIP B i).2 else t) t).ips) :
    y ∈ t.ips ∧ ¬ (y ∈ l ∧ allIps.count y = 0) := by
  induction l generalizing t with
  | nil => exact ⟨h, by simp⟩
  | cons a l ih =>
    simp only [List.foldl_cons] at h
    by_cases hc : allIps.count a = 0
    · simp only [hc, if_true] at h
      obtain ⟨h1, h2⟩ := ih _ h
      obtain ⟨hne, hin⟩ := hR t a y h1
      refine ⟨hin, ?_⟩
      rintro ⟨hm, hz⟩
      rcases List.mem_cons.1 hm with rfl | hm
      · exact hne rfl
      · exact h2 ⟨hm, hz⟩
    · simp only [hc, if_false] at h
      obtain ⟨h1, h2⟩ := ih _ h
      refine ⟨h1, ?_⟩
      rintro ⟨hm, hz⟩
      rcases List.mem_cons.1 hm with rfl | hm
      · exact hc hz
      · exact h2 ⟨hm, hz⟩

theorem addFold_mem_of_decides (B : Backend β) (accAdd accRemove : InetAddress → Bool)
    (hD : B.Decides accAdd accRemove) (l : List InetAddress) (t : EthernetTap β)
    (y : InetAddress) :
    y ∈ (l.foldl (fun t i => (t.addIP B i).2) t).ips ↔
      y ∈ t.ips ∨ (y ∈ l ∧ accAdd y = true) := by
  induction l generalizing t with
  | nil => simp
  | cons a l ih =>
    rw [List.foldl_cons, ih, (hD t a).1]
    by_cases ha : accAdd a = true
    · simp only [ha, if_true, StdSet.mem_insert, List.mem_cons]
      constructor
      · rintro ((rfl | h) | ⟨h, h'⟩)
        · exact Or.inr ⟨Or.inl rfl, ha⟩
        · exact Or.inl h
        · exact Or.inr ⟨Or.inr h, h'⟩
      · rintro (h | ⟨rfl | h, h'⟩)
        · exact Or.inl (Or.inr h)
        · exact Or.inl (Or.inl rfl)
        · exact Or.inr ⟨h, h'⟩
    · simp only [ha, List.mem_cons]
      constructor
      · rintro (h | ⟨h, h'⟩)
        · exact Or.inl h
        · exact Or.inr ⟨Or.inr h, h'⟩
      · rintro (h | ⟨rfl | h, h'⟩)
        · exact Or.inl h
        · exact absurd h' ha
        · exact Or.inr ⟨h, h'⟩

theorem removeFold_mem_of_decides (B : Backend β) (accAdd accRemove : InetAddress → Bool)
    (hD : B.Decides accAdd accRemove) (allIps : StdSet InetAddress) (l : List InetAddress)
    (t : EthernetTap β) (y : InetAddress) :
    y ∈ (l.foldl (fun t i => if allIps.count i = 0 then (t.removeIP B i).2 else t) t).ips ↔
      y ∈ t.ips ∧ ¬ (y ∈ l ∧ allIps.count y = 0 ∧ accRemove y = true) := by
  induction l generalizing t with
  | nil => simp
  | cons a l ih =>
    rw [List.foldl_cons, ih]
    by_cases hc : allIps.count a = 0
    · simp only [hc, if_true, (hD t a).2]
      by_cases ha : accRemove a = true
      · simp only [ha, if_true, StdSet.mem_erase, List.mem_cons]
        constructor
        · rintro ⟨⟨hne, hin⟩, h2⟩
          refine ⟨hin, ?_⟩
          rintro ⟨rfl | hm, hz, hr⟩
          · exact hne rfl
          · exact h2 ⟨hm, hz, hr⟩
        · rintro ⟨hin, h2⟩
          refine ⟨⟨?_, hin⟩, fun ⟨hm, hz, hr⟩ => h2 ⟨Or.inr hm, hz, hr⟩⟩
          rintro rfl
          exact h2 ⟨Or.inl rfl, hc, ha⟩
      · simp only [ha, List.mem_cons]
        constructor
        · rintro ⟨hin, h2⟩
          refine ⟨hin, ?_⟩
          rintro ⟨rfl | hm, hz, hr⟩
          · exact ha hr
          · exact h2 ⟨hm, hz, hr⟩
        · rintro ⟨hin, h2⟩
          exact ⟨hin, fun ⟨hm, hz, hr⟩ => h2 ⟨Or.inr hm, hz, hr⟩⟩
    · simp only [hc, if_false, List.mem_cons]
      constructor
      · rintro ⟨hin, h2⟩
        refine ⟨hin, ?_⟩
        rintro ⟨rfl | hm, hz, hr⟩
        · exact hc hz
        · exact h2 ⟨hm, hz, hr⟩
      · rintro ⟨hin, h2⟩
        exact ⟨hin, fun ⟨hm, hz, hr⟩ => h2 ⟨Or.inr hm, hz, hr⟩⟩

/-- The declared set after `setIps(allIps)` under a backend that decides by
call and argument. -/
theorem setIps_mem_of_decides (B : Backend β) (accAdd accRemove : InetAddress → Bool)
    (hD : B.Decides accAdd accRemove) (allIps : StdSet InetAddress) (t : EthernetTap β)
    (y : InetAddress) :
    y ∈ (t.setIps B allIps).ips ↔
      (y ∈ t.ips ∨ (y ∈ allIps ∧ accAdd y = true)) ∧ ¬ (y ∉ allIps ∧ accRemove y = true) := by
  have hadd := addFold_mem_of_decides B accAdd accRemove hD allIps.elems t y
  have hrem := removeFold_mem_of_decides B accAdd accRemove hD allIps
    (t.addPass B allIps).ips.elems (t.addPass B allIps) y
  change y ∈ (t.addPass B allIps).ips ↔ _ at hadd
  change y ∈ (t.setIps B allIps).ips ↔ _ at hrem
  rw [hrem, StdSet.count_eq_zero, ← StdSet.mem_def, hadd]
  constructor
  · rintro ⟨h1, h2⟩
    exact ⟨h1, fun ⟨hn, hr⟩ => h2 ⟨h1, hn, hr⟩⟩
  · rintro ⟨h1, h2⟩
    exact ⟨h1, fun ⟨_, hn, hr⟩ => h2 ⟨hn, hr⟩⟩

theorem decides_of_acceptsAll (B : Backend β) (h : B.AcceptsAll) :
    B.Decides (fun _ => true) (fun _ => true) := by
  intro t x
  constructor
  · apply StdSet.ext
    intro y
    simp only [if_true, StdSet.mem_insert]
    exact (h t x y).1
  · apply StdSet.ext
    intro y
    simp only [if_true, StdSet.mem_erase]
    exact (h t x y).2

theorem deciding_decides (β : Type) (accAdd accRemove : InetAddress → Bool) :
    (Backend.deciding β accAdd accRemove).Decides accAdd accRemove := by
  intro t x
  constructor
  · show (EthernetTap.addIP _ t x).2.ips = _
    unfold EthernetTap.addIP Backend.deciding EthernetTap.ips
    by_cases h : accAdd x = true <;> simp [h]
  · show (EthernetTap.removeIP _ t x).2.ips = _
    unfold EthernetTap.removeIP Backend.deciding EthernetTap.ips
    by_cases h : accRemove x = true <;> simp [h]

theorem ideal_acceptsAll (β : Type) : (Backend.ideal β).AcceptsAll := by
  intro t x y
  have h := deciding_decides β (fun _ => true) (fun _ => true) t x
  simp only [if_true] at h
  constructor
  · show y ∈ (EthernetTap.addIP (Backend.deciding β _ _) t x).2.ips ↔ _
    rw [h.1, StdSet.mem_insert]
  · show y ∈ (EthernetTap.removeIP (Backend.deciding β _ _) t x).2.ips ↔ _
    rw [h.2, StdSet.mem_erase]

end EthernetTap

/-! ## The calls of `setIps` -/

namespace EthernetTap

variable {β : Type}

theorem filter_isAdd_adds (l : List InetAddress) :
    (l.map Op.add).filter Op.isAdd = l.map Op.add := by
  induction l with
  | nil => rfl
  | cons a l ih => simp [Op.isAdd, ih]

theorem filter_isAdd_removes (l : List InetAddress) :
    (l.map Op.remove).filter Op.isAdd = [] := by
  induction l with
  | nil => rfl
  | cons a l ih => simp [Op.isAdd, ih]

theorem mem_add_calls (B : Backend β) (allIps : StdSet InetAddress) (t : EthernetTap β)
    (x : InetAddress) : Op.add x ∈ t.setIpsCalls B allIps ↔ x ∈ allIps := by
  rw [setIpsCalls_eq]
  simp [StdSet.mem_def]

theorem mem_remove_calls (B : Backend β) (allIps : StdSet InetAddress) (t : EthernetTap β)
    (y : InetAddress) :
    Op.remove y ∈ t.setIpsCalls B allIps ↔ y ∈ (t.addPass B allIps).ips ∧ y ∉ allIps := by
  rw [setIpsCalls_eq]
  simp [StdSet.mem_def, StdSet.count_eq_zero]

theorem count_remove_calls (B : Backend β) (allIps : StdSet InetAddress) (t : EthernetTap β)
    (y : InetAddress) :
    (t.setIpsCalls B allIps).count (Op.remove y)
      = if y ∈ (t.addPass B allIps).ips ∧ y ∉ allIps then 1 else 0 := by
  have hinj : Function.Injective Op.remove := fun a b h => by cases h; rfl
  have hnd : ((t.addPass B allIps).ips.elems.filter
      (fun i => decide (allIps.count i = 0))).Nodup :=
    (t.addPass B allIps).ips.nodup.filter _
  have h0 : (allIps.elems.map Op.add).count (Op.remove y) = 0 := by
    rw [List.count_eq_zero]
    simp
  rw [setIpsCalls_eq, List.count_append, h0, Nat.zero_add,
    List.count_map_of_injective _ _ hinj, List.count_eq_of_nodup hnd]
  simp [StdSet.mem_def, StdSet.count_eq_zero]

theorem adds_then_removes_order (A R : List InetAddress) (i j : Nat) (a r : InetAddress)
    (hi : (A.map Op.add ++ R.map Op.remove)[i]? = some (Op.add a))
    (hj : (A.map Op.add ++ R.map Op.remove)[j]? = some (Op.remove r)) : i < j := by
  have hlen : (A.map Op.add).length = A.length := List.length_map _ _
  have hi' : i < A.length := by
    by_contra hge
    rw [List.getElem?_append_right (by omega)] at hi
    rw [List.getElem?_map] at hi
    cases hR : R[i - (A.map Op.add).length]? with
    | none => rw [hR] at hi; simp at hi
    | some v => rw [hR] at hi; simp at hi
  have hj' : A.length ≤ j := by
    by_contra hlt
    rw [List.getElem?_append_left (by omega)] at hj
    rw [List.getElem?_map] at hj
    cases hA : A[j]? with
    | none => rw [hA] at hj; simp at hj
    | some v => rw [hA] at hj; simp at hj
  omega

end EthernetTap

/-! ## Backend behaviours, related -/

namespace Backend

variable {β : Type}

theorem removesAccepted_of_decides (B : Backend β) (accAdd : InetAddress → Bool)
    (hD : B.Decides accAdd (fun _ => true)) : B.RemovesAccepted := by
  intro t x y h
  rw [(hD t x).2] at h
  simpa [StdSet.mem_erase] using h

theorem acceptsAdd_of_decides (B : Backend β) (accAdd accRemove : InetAddress → Bool)
    (hD : B.Decides accAdd accRemove) (x : InetAddress) (hx : accAdd x = true) :
    B.AcceptsAdd x := by
  intro t
  rw [(hD t x).1]
  simp [hx, StdSet.mem_insert]

theorem ownArgumentOnly_of_decides (B : Backend β) (accAdd accRemove : InetAddress → Bool)
    (hD : B.Decides accAdd accRemove) : B.OwnArgumentOnly := by
  intro t x y hne
  rw [(hD t x).1, (hD t x).2]
  constructor
  · by_cases h : accAdd x = true <;> simp [h, StdSet.mem_insert, hne]
  · by_cases h : accRemove x = true <;> simp [h, StdSet.mem_erase, hne]

theorem othersKeep_of_ownArgumentOnly (B : Backend β) (h : B.OwnArgumentOnly)
    (x : InetAddress) : B.OthersKeep x := by
  intro t y hne hx
  exact ⟨(h t y x (Ne.symm hne)).1.2 hx, (h t y x (Ne.symm hne)).2.2 hx⟩

theorem addKeeps_of_decides (B : Backend β) (accAdd accRemove : InetAddress → Bool)
    (hD : B.Decides accAdd accRemove) (t : EthernetTap β) (x : InetAddress) (hx : x ∈ t.ips) :
    x ∈ (t.addIP B x).2.ips := by
  rw [(hD t x).1]
  by_cases h : accAdd x = true <;> simp [h, StdSet.mem_insert, hx]

theorem addKeepsAny_of_decides (B : Backend β) (accAdd accRemove : InetAddress → Bool)
    (hD : B.Decides accAdd accRemove) (t : EthernetTap β) (x y : InetAddress)
    (hx : x ∈ t.ips) : x ∈ (t.addIP B y).2.ips := by
  rw [(hD t y).1]
  by_cases h : accAdd y = true <;> simp [h, StdSet.mem_insert, hx]

theorem reasserting_ownArgumentOnly (β : Type) (accAdd : InetAddress → Bool) :
    (reasserting β accAdd).OwnArgumentOnly := by
  intro t x y hne
  constructor
  · show y ∈ (EthernetTap.addIP (reasserting β accAdd) t x).2.ips ↔ _
    unfold EthernetTap.addIP reasserting
    by_cases h : accAdd x = true
    · simp only [h, if_true]
      show y ∈ (t.ips.erase x).insert x ↔ _
      simp [StdSet.mem_insert, StdSet.mem_erase, hne]
    · simp only [h]
      show y ∈ t.ips.erase x ↔ _
      simp [StdSet.mem_erase, hne]
  · show y ∈ t.ips.erase x ↔ _
    simp [StdSet.mem_erase, hne]

theorem replacing_acceptsAdd (β : Type) (x : InetAddress) : (replacing β).AcceptsAdd x := by
  intro t
  show x ∈ StdSet.insert _ x
  simp [StdSet.mem_insert]

end Backend

/-! ## The claims -/

namespace EthernetTap

variable {β : Type}

/-- C1: when the backend accepts every address call (`addIP(x)` leaves `x`
declared, `removeIP(x)` leaves it undeclared, neither touches another address),
`ips()` after `setIps(S)` is exactly `S`, whatever was declared before. -/
theorem setIps_exact_of_acceptsAll (B : Backend β) (hB : B.AcceptsAll)
    (S : StdSet InetAddress) (t : EthernetTap β) : (t.setIps B S).ips = S := by
  apply StdSet.ext
  intro y
  rw [setIps_mem_of_decides B _ _ (decides_of_acceptsAll B hB) S t y]
  constructor
  · rintro ⟨_, h2⟩
    by_contra hy
    exact h2 ⟨hy, rfl⟩
  · intro hy
    exact ⟨Or.inr ⟨hy, rfl⟩, fun h => h.1 hy⟩

/-- Scenario S2 under the accepting backend: from `{}` the first `setIps`
yields `{10.0.0.2/24, fd00::2/64}`, the second `{10.0.0.3/24, fd00::2/64}`. -/
theorem setIps_exact_scenario :
    (Backend.ideal Unit).AcceptsAll ∧
    ((tapWith StdSet.empty).setIps (Backend.ideal Unit) s2First).ips = s2First ∧
    (((tapWith StdSet.empty).setIps (Backend.ideal Unit) s2First).setIps
        (Backend.ideal Unit) s2Second).ips = s2Second :=
  ⟨ideal_acceptsAll Unit,
   setIps_exact_of_acceptsAll (Backend.ideal Unit) (ideal_acceptsAll Unit) s2First
     (tapWith StdSet.empty),
   setIps_exact_of_acceptsAll (Backend.ideal Unit) (ideal_acceptsAll Unit) s2Second
     ((tapWith StdSet.empty).setIps (Backend.ideal Unit) s2First)⟩

/-- C2 fails when a removal fails: with `10.0.0.2/24` declared and a backend
that rejects every `removeIP`, `setIps({})` leaves `10.0.0.2/24` declared,
which is no element of `{}`. -/
theorem setIps_not_subset_when_remove_fails :
    ip_10_0_0_2 ∈ (tapWith (StdSet.ofList [ip_10_0_0_2])).ips ∧
    ip_10_0_0_2 ∉ (StdSet.empty : StdSet InetAddress) ∧
    ip_10_0_0_2 ∈ ((tapWith (StdSet.ofList [ip_10_0_0_2])).setIps
      (Backend.deciding Unit (fun _ => true) (fun _ => false)) StdSet.empty).ips := by
  decide

/-- C2, amended: whatever `addIP` does, when every `removeIP(x)` is carried out
(`x` undeclared afterwards, nothing becomes declared), `ips()` after
`setIps(S)` is a subset of `S`, and every address declared before the call and
not in `S` is absent afterwards. -/
theorem setIps_subset_of_removesAccepted (B : Backend β) (hR : B.RemovesAccepted)
    (S : StdSet InetAddress) (t : EthernetTap β) :
    (∀ y, y ∈ (t.setIps B S).ips → y ∈ S) ∧
    (∀ y, y ∈ t.ips → y ∉ S → y ∉ (t.setIps B S).ips) := by
  have hsub : ∀ y, y ∈ (t.setIps B S).ips → y ∈ S := by
    intro y hy
    obtain ⟨h1, h2⟩ := removeFold_subset B hR S (t.addPass B S).ips.elems (t.addPass B S) y hy
    by_contra hn
    exact h2 ⟨h1, (StdSet.count_eq_zero S y).2 hn⟩
  exact ⟨hsub, fun y _ hn hy => hn (hsub y hy)⟩

/-- With every `addIP` rejected and every `removeIP` accepted, `setIps` of
`{10.0.0.3/24, fd00::2/64}` on `{10.0.0.2/24, fd00::2/64}` leaves a subset of
the desired set and `10.0.0.2/24` is gone. -/
theorem setIps_subset_scenario :
    (Backend.deciding Unit (fun _ => false) (fun _ => true)).RemovesAccepted ∧
    (∀ y, y ∈ ((tapWith s2First).setIps
        (Backend.deciding Unit (fun _ => false) (fun _ => true)) s2Second).ips → y ∈ s2Second) ∧
    (∀ y, y ∈ (tapWith s2First).ips → y ∉ s2Second →
      y ∉ ((tapWith s2First).setIps
        (Backend.deciding Unit (fun _ => false) (fun _ => true)) s2Second).ips) :=
  ⟨Backend.removesAccepted_of_decides _ _ (deciding_decides Unit _ _),
   setIps_subset_of_removesAccepted _
     (Backend.removesAccepted_of_decides _ _ (deciding_decides Unit _ _)) s2Second
     (tapWith s2First)⟩

/-- C3 fails without a frame condition: under a backend that keeps one
netmask per address, `addIP(10.0.0.2/16)` is accepted, yet after
`setIps({10.0.0.2/16, 10.0.0.2/24})` from `{}` the tuple `10.0.0.2/16` is not
declared, the later `addIP(10.0.0.2/24)` having replaced it. -/
theorem setIps_accepted_add_lost :
    (Backend.replacing Unit).AcceptsAdd ip_10_0_0_2_m16 ∧
    ip_10_0_0_2_m16 ∈ StdSet.ofList [ip_10_0_0_2_m16, ip_10_0_0_2] ∧
    ip_10_0_0_2_m16 ∉ ((tapWith StdSet.empty).setIps (Backend.replacing Unit)
      (StdSet.ofList [ip_10_0_0_2_m16, ip_10_0_0_2])).ips :=
  ⟨Backend.replacing_acceptsAdd Unit _, by decide, by decide⟩

/-- C3, amended: an element `x` of `S` whose `addIP(x)` the backend accepts is
declared after `setIps(S)`, whether the calls on the other addresses succeed
or fail, provided no call on another address undeclares `x`. -/
theorem setIps_accepted_add_present (B : Backend β) (S : StdSet InetAddress) (x : InetAddress)
    (hx : x ∈ S) (hAcc : B.AcceptsAdd x) (hKeep : B.OthersKeep x) (t : EthernetTap β) :
    x ∈ (t.setIps B S).ips :=
  removeFold_keeps B S x hx (fun t y hne h => (hKeep t y hne h).2) _ _
    (addFold_gets B x hAcc hKeep S.elems t hx)

/-- Under a backend that accepts `addIP` for `10.0.0.3/24` only and rejects
every removal, `10.0.0.3/24` is declared after `setIps({10.0.0.3/24, fd00::2/64})`. -/
theorem setIps_accepted_add_scenario :
    ip_10_0_0_3 ∈ s2Second ∧
    ip_10_0_0_3 ∈ ((tapWith s2First).setIps
      (Backend.deciding Unit (fun a => a == ip_10_0_0_3) (fun _ => false)) s2Second).ips :=
  ⟨by decide,
   setIps_accepted_add_present _ s2Second ip_10_0_0_3 (by decide)
     (Backend.acceptsAdd_of_decides _ _ _ (deciding_decides Unit _ _) _ (by decide))
     (Backend.othersKeep_of_ownArgumentOnly _
       (Backend.ownArgumentOnly_of_decides _ _ _ (deciding_decides Unit _ _)) _)
     (tapWith s2First)⟩

/-- C4 fails for an address that is already declared: with `10.0.0.2/24`
declared, `setIps({10.0.0.2/24})` calls `addIP(10.0.0.2/24)` although the
address is not in `S \ C`. -/
theorem setIps_adds_declared_address :
    ip_10_0_0_2 ∈ (tapWith (StdSet.ofList [ip_10_0_0_2])).ips ∧
    Op.add ip_10_0_0_2 ∈ (tapWith (StdSet.ofList [ip_10_0_0_2])).setIpsCalls
      (Backend.ideal Unit) (StdSet.ofList [ip_10_0_0_2]) := by
  decide

/-- C4, amended: `setIps(S)` calls `addIP` exactly once for each element of
`S`, in ascending order, whether or not the element is already declared, and
for no other address. -/
theorem setIps_adds_every_element (B : Backend β) (S : StdSet InetAddress)
    (t : EthernetTap β) :
    (t.setIpsCalls B S).filter Op.isAdd = S.elems.map Op.add ∧
    (∀ x, Op.add x ∈ t.setIpsCalls B S ↔ x ∈ S) ∧
    (∀ x, (t.setIpsCalls B S).count (Op.add x) = if x ∈ S then 1 else 0) := by
  refine ⟨?_, mem_add_calls B S t, ?_⟩
  · rw [setIpsCalls_eq, List.filter_append, filter_isAdd_adds, filter_isAdd_removes]
    simp
  · intro x
    have hinj : Function.Injective Op.add := fun a b h => by cases h; rfl
    have h0 : (((t.addPass B S).ips.elems.filter
        (fun i => decide (S.count i = 0))).map Op.remove).count (Op.add x) = 0 := by
      rw [List.count_eq_zero]
      simp
    rw [setIpsCalls_eq, List.count_append, h0, Nat.add_zero,
      List.count_map_of_injective _ _ hinj, List.count_eq_of_nodup S.nodup]
    simp [StdSet.mem_def]

/-- C5: in the calls of one `setIps(S)` every `addIP` comes before every
`removeIP`, for every backend, `S` and object, where an `addIP` is issued for
each element of `S` and a `removeIP` for each address of the snapshot outside
`S`. Consequently, when `S` is the declared set with one tuple `old` replaced
by `new`, the same address under another mask: `addIP(new)` is issued and
precedes every `removeIP(old)`; `removeIP(old)` is issued exactly when `old` is
in the snapshot taken after the first loop; and when no `addIP` of an element
of `S` undeclares `old`, both calls are issued, each exactly once,
`addIP(new)` at an earlier position than `removeIP(old)`. -/
theorem setIps_adds_precede_removes (B : Backend β) (S : StdSet InetAddress)
    (t : EthernetTap β) :
    ((∀ (i j : Nat) (a r : InetAddress),
        (t.setIpsCalls B S)[i]? = some (Op.add a) →
        (t.setIpsCalls B S)[j]? = some (Op.remove r) → i < j) ∧
      (∀ x, x ∈ S → ∃ i : Nat, (t.setIpsCalls B S)[i]? = some (Op.add x)) ∧
      (∀ y, y ∈ (t.addPass B S).ips → y ∉ S →
        ∃ j : Nat, (t.setIpsCalls B S)[j]? = some (Op.remove y))) ∧
    (∀ old new : InetAddress, old.sameAddress new = true → old.bits ≠ new.bits →
      old ∈ t.ips → new ∉ t.ips → S = (t.ips.erase old).insert new →
      (∃ i : Nat, (t.setIpsCalls B S)[i]? = some (Op.add new) ∧
        ∀ j : Nat, (t.setIpsCalls B S)[j]? = some (Op.remove old) → i < j) ∧
      (Op.remove old ∈ t.setIpsCalls B S ↔ old ∈ (t.addPass B S).ips) ∧
      ((∀ (u : EthernetTap β) (y : InetAddress), y ∈ S → old ∈ u.ips →
          old ∈ (u.addIP B y).2.ips) →
        (∃ i j : Nat, i < j ∧ (t.setIpsCalls B S)[i]? = some (Op.add new) ∧
          (t.setIpsCalls B S)[j]? = some (Op.remove old)) ∧
        (t.setIpsCalls B S).count (Op.add new) = 1 ∧
        (t.setIpsCalls B S).count (Op.remove old) = 1)) := by
  have hord : ∀ (i j : Nat) (a r : InetAddress),
      (t.setIpsCalls B S)[i]? = some (Op.add a) →
      (t.setIpsCalls B S)[j]? = some (Op.remove r) → i < j := by
    intro i j a r hi hj
    rw [setIpsCalls_eq] at hi hj
    exact adds_then_removes_order _ _ i j a r hi hj
  have hadds : ∀ x, x ∈ S → ∃ i : Nat, (t.setIpsCalls B S)[i]? = some (Op.add x) :=
    fun x hx => List.getElem?_of_mem ((mem_add_calls B S t x).2 hx)
  have hrems : ∀ y, y ∈ (t.addPass B S).ips → y ∉ S →
      ∃ j : Nat, (t.setIpsCalls B S)[j]? = some (Op.remove y) :=
    fun y hy hn => List.getElem?_of_mem ((mem_remove_calls B S t y).2 ⟨hy, hn⟩)
  refine ⟨⟨hord, hadds, hrems⟩, ?_⟩
  intro old new _ hbits hold _ hS
  have hnew : new ∈ S := by
    rw [hS, StdSet.mem_insert]
    exact Or.inl rfl
  have hne : old ≠ new := fun h => hbits (congrArg InetAddress.bits h)
  have holdS : old ∉ S := by
    rw [hS, StdSet.mem_insert, StdSet.mem_erase]
    rintro (h | ⟨h, _⟩)
    · exact hne h
    · exact h rfl
  obtain ⟨i, hi⟩ := hadds new hnew
  refine ⟨⟨i, hi, fun j hj => hord i j new old hi hj⟩, ?_, ?_⟩
  · rw [mem_remove_calls]
    exact ⟨fun h => h.1, fun h => ⟨h, holdS⟩⟩
  · intro hkeep
    have hsnap : old ∈ (t.addPass B S).ips :=
      addFold_keeps_on B old S.elems (fun u y hy hu => hkeep u y hy hu) t hold
    obtain ⟨j, hj⟩ := hrems old hsnap holdS
    have hcount : ∀ y, (t.setIpsCalls B S).count (Op.add y) = if y ∈ S then 1 else 0 := by
      intro y
      have hinj : Function.Injective Op.add := fun a b h => by cases h; rfl
      have h0 : (((t.addPass B S).ips.elems.filter
          (fun i => decide (S.count i = 0))).map Op.remove).count (Op.add y) = 0 := by
        rw [List.count_eq_zero]
        simp
      rw [setIpsCalls_eq, List.count_append, h0, Nat.add_zero,
        List.count_map_of_injective _ _ hinj, List.count_eq_of_nodup S.nodup]
      simp [StdSet.mem_def]
    refine ⟨⟨i, j, hord i j new old hi hj, hi, hj⟩, ?_, ?_⟩
    · rw [hcount new, if_pos hnew]
    · rw [count_remove_calls, if_pos ⟨hsnap, holdS⟩]

/-- Changing `10.0.0.2/24` to `10.0.0.2/16` under the accepting backend: the
calls are `addIP(10.0.0.2/16)` then `removeIP(10.0.0.2/24)`, at positions
`i < j`. -/
theorem setIps_mask_change_scenario :
    (tapWith (StdSet.ofList [ip_10_0_0_2])).setIpsCalls (Backend.ideal Unit)
        (StdSet.ofList [ip_10_0_0_2_m16]) = [Op.add ip_10_0_0_2_m16, Op.remove ip_10_0_0_2] ∧
    ∃ i j : Nat, i < j ∧
      ((tapWith (StdSet.ofList [ip_10_0_0_2])).setIpsCalls (Backend.ideal Unit)
        (StdSet.ofList [ip_10_0_0_2_m16]))[i]? = some (Op.add ip_10_0_0_2_m16) ∧
      ((tapWith (StdSet.ofList [ip_10_0_0_2])).setIpsCalls (Backend.ideal Unit)
        (StdSet.ofList [ip_10_0_0_2_m16]))[j]? = some (Op.remove ip_10_0_0_2) :=
  ⟨by decide,
   (((setIps_adds_precede_removes (Backend.ideal Unit) (StdSet.ofList [ip_10_0_0_2_m16])
      (tapWith (StdSet.ofList [ip_10_0_0_2]))).2 ip_10_0_0_2 ip_10_0_0_2_m16
      (by decide) (by decide) (by decide) (by decide) (by decide)).2.2
      (fun u y _ hu => Backend.addKeepsAny_of_decides _ _ _ (deciding_decides Unit _ _)
        u ip_10_0_0_2 y hu)).1⟩

/-- C6: `setIps` is best effort with no rollback. Whatever the backend answers,
`addIP` is attempted for every element of `S` and `removeIP` for every address
of the snapshot outside `S`; the object afterwards is the result of exactly
those calls in order, none of which removes an element of `S` or adds an
address outside `S`; and for `S = {10.0.0.2/24, 10.0.0.3/24, fd00::2/64}` from
`{}` with `addIP(10.0.0.3/24)` failing (it returns false and leaves the
declared set as it is), the declared set ends as `{10.0.0.2/24, fd00::2/64}`,
neither the initial set nor `S`. -/
theorem setIps_best_effort_no_rollback :
    (∀ (β : Type) (B : Backend β) (S : StdSet InetAddress) (t : EthernetTap β),
      (∀ x, x ∈ S → Op.add x ∈ t.setIpsCalls B S) ∧
      (∀ y, y ∈ (t.addPass B S).ips → y ∉ S → Op.remove y ∈ t.setIpsCalls B S) ∧
      (∀ x, x ∈ S → Op.remove x ∉ t.setIpsCalls B S) ∧
      (∀ y, y ∉ S → Op.add y ∉ t.setIpsCalls B S) ∧
      t.setIps B S = t.replay B (t.setIpsCalls B S)) ∧
    (∃ (B : Backend Unit) (S : StdSet InetAddress) (t : EthernetTap Unit),
      (∀ u : EthernetTap Unit,
        (u.addIP B ip_10_0_0_3).1 = false ∧ (u.addIP B ip_10_0_0_3).2.ips = u.ips) ∧
      ip_10_0_0_3 ∈ S ∧
      (t.setIps B S).ips = s2First ∧
      (t.setIps B S).ips ≠ t.ips ∧ (t.setIps B S).ips ≠ S) := by
  constructor
  · intro β B S t
    refine ⟨fun x hx => (mem_add_calls B S t x).2 hx,
      fun y hy hn => (mem_remove_calls B S t y).2 ⟨hy, hn⟩,
      fun x hx h => ((mem_remove_calls B S t x).1 h).2 hx,
      fun y hn h => hn ((mem_add_calls B S t y).1 h),
      setIps_eq_replay B S t⟩
  · exact ⟨Backend.deciding Unit (fun a => a != ip_10_0_0_3) (fun _ => true),
      StdSet.ofList [ip_10_0_0_2, ip_10_0_0_3, ip_fd00_2], tapWith StdSet.empty,
      fun _ => ⟨rfl, rfl⟩, by decide, by decide, by decide, by decide⟩

theorem addIP_mac_mtu (B : Backend β) (t : EthernetTap β) (ip : InetAddress) :
    (t.addIP B ip).2.mac = t.mac ∧ (t.addIP B ip).2.mtu = t.mtu := ⟨rfl, rfl⟩

theorem removeIP_mac_mtu (B : Backend β) (t : EthernetTap β) (ip : InetAddress) :
    (t.removeIP B ip).2.mac = t.mac ∧ (t.removeIP B ip).2.mtu = t.mtu := ⟨rfl, rfl⟩

theorem setIps_mac_mtu (B : Backend β) (S : StdSet InetAddress) (t : EthernetTap β) :
    (t.setIps B S).mac = t.mac ∧ (t.setIps B S).mtu = t.mtu := by
  have hadd : ∀ (l : List InetAddress) (t : EthernetTap β),
      (l.foldl (fun t i => (t.addIP B i).2) t).mac = t.mac ∧
      (l.foldl (fun t i => (t.addIP B i).2) t).mtu = t.mtu := by
    intro l
    induction l with
    | nil => exact fun t => ⟨rfl, rfl⟩
    | cons a l ih => exact fun t => ih _
  have hrem : ∀ (l : List InetAddress) (t : EthernetTap β),
      (l.foldl (fun t i => if S.count i = 0 then (t.removeIP B i).2 else t) t).mac = t.mac ∧
      (l.foldl (fun t i => if S.count i = 0 then (t.removeIP B i).2 else t) t).mtu = t.mtu := by
    intro l
    induction l with
    | nil => exact fun t => ⟨rfl, rfl⟩
    | cons a l ih =>
      intro t
      simp only [List.foldl_cons]
      by_cases hc : S.count a = 0
      · simp only [hc, if_true]; exact ih _
      · simp only [hc, if_false]; exact ih _
  obtain ⟨h1, h2⟩ := hrem (t.addPass B S).ips.elems (t.addPass B S)
  obtain ⟨h3, h4⟩ := hadd S.elems t
  exact ⟨h1.trans h3, h2.trans h4⟩

theorem run_mac_mtu (B : Backend β) (calls : List Call) (t : EthernetTap β) :
    (t.run B calls).mac = t.mac ∧ (t.run B calls).mtu = t.mtu := by
  induction calls generalizing t with
  | nil => exact ⟨rfl, rfl⟩
  | cons c calls ih =>
    have hstep : (t.step B c).mac = t.mac ∧ (t.step B c).mtu = t.mtu := by
      cases c with
      | setIps S => exact setIps_mac_mtu B S t
      | ips => exact ⟨rfl, rfl⟩
      | addIP ip => exact ⟨rfl, rfl⟩
      | removeIP ip => exact ⟨rfl, rfl⟩
      | mac => exact ⟨rfl, rfl⟩
      | mtu => exact ⟨rfl, rfl⟩
    obtain ⟨h1, h2⟩ := ih (t.step B c)
    exact ⟨h1.trans hstep.1, h2.trans hstep.2⟩

/-- C7: `mac()` and `mtu()` are constant after construction. For every object
and every `S` they return after `setIps(S)` what they returned before, and on
an object that construction with `mac` and `mtu` produced they return `mac`
and `mtu` after any sequence of `setIps`, `ips`, `addIP`, `removeIP`, `mac`
and `mtu` calls. -/
theorem mac_mtu_constant (B : Backend β) (openDevice : String → MAC → Nat → Option β)
    (tag : String) (mac : MAC) (mtu : Nat) (t : EthernetTap β)
    (h : construct openDevice tag mac mtu = Except.ok t) (calls : List Call) :
    (∀ (u : EthernetTap β) (S : StdSet InetAddress),
      (u.setIps B S).mac = u.mac ∧ (u.setIps B S).mtu = u.mtu) ∧
    (t.run B calls).mac = mac ∧ (t.run B calls).mtu = mtu := by
  refine ⟨fun u S => setIps_mac_mtu B S u, ?_⟩
  have ht : t.mac = mac ∧ t.mtu = mtu := by
    unfold construct at h
    cases hdev : openDevice tag mac mtu with
    | none => rw [hdev] at h; cases h
    | some dev =>
      rw [hdev] at h
      cases h
      exact ⟨rfl, rfl⟩
  obtain ⟨h1, h2⟩ := run_mac_mtu B calls t
  exact ⟨h1.trans ht.1, h2.trans ht.2⟩

/-- Scenario S1 followed by S2: construction with MAC `02:11:22:33:44:55` and
MTU 1500 succeeds, and both values are returned after the two `setIps` calls. -/
theorem mac_mtu_constant_scenario :
    construct (fun _ _ _ => some ()) "deadbeef" ⟨0x021122334455⟩ 1500
      = Except.ok (tapWith StdSet.empty) ∧
    ((tapWith StdSet.empty).run (Backend.ideal Unit)
      [Call.setIps s2First, Call.ips, Call.setIps s2Second]).mac = ⟨0x021122334455⟩ ∧
    ((tapWith StdSet.empty).run (Backend.ideal Unit)
      [Call.setIps s2First, Call.ips, Call.setIps s2Second]).mtu = 1500 :=
  ⟨rfl,
   (mac_mtu_constant (Backend.ideal Unit) (fun _ _ _ => some ()) "deadbeef" ⟨0x021122334455⟩
     1500 (tapWith StdSet.empty) rfl
     [Call.setIps s2First, Call.ips, Call.setIps s2Second]).2⟩

/-- C9 fails as stated: the backend `reasserting` changes membership of the
argument of a call only, yet with `10.0.0.2/24` declared and in `S`,
`setIps(S)` calls `addIP(10.0.0.2/24)`, which the host refuses after the
tuple was taken off, so it ends undeclared. -/
theorem setIps_declared_element_lost :
    (Backend.reasserting Unit (fun _ => false)).OwnArgumentOnly ∧
    ip_10_0_0_2 ∈ StdSet.ofList [ip_10_0_0_2] ∧
    ip_10_0_0_2 ∈ (tapWith (StdSet.ofList [ip_10_0_0_2])).ips ∧
    ip_10_0_0_2 ∉ ((tapWith (StdSet.ofList [ip_10_0_0_2])).setIps
      (Backend.reasserting Unit (fun _ => false)) (StdSet.ofList [ip_10_0_0_2])).ips :=
  ⟨Backend.reasserting_ownArgumentOnly Unit _, by decide, by decide, by decide⟩

/-- C9, amended: `setIps(S)` calls `removeIP` exactly once for each address of
the snapshot taken after the first loop that is not in `S`, and never with an
element of `S`; hence an element of `S` declared before the call is declared
after it, provided `addIP` and `removeIP` change membership only of their own
argument and `addIP(x)` leaves a declared `x` declared. -/
theorem setIps_removes_stale_once (B : Backend β) (S : StdSet InetAddress)
    (t : EthernetTap β) :
    (∀ y, (t.setIpsCalls B S).count (Op.remove y)
      = if y ∈ (t.addPass B S).ips ∧ y ∉ S then 1 else 0) ∧
    (∀ x, x ∈ S → Op.remove x ∉ t.setIpsCalls B S) ∧
    (B.OwnArgumentOnly →
      (∀ (u : EthernetTap β) (x : InetAddress), x ∈ u.ips → x ∈ (u.addIP B x).2.ips) →
      ∀ x, x ∈ S → x ∈ t.ips → x ∈ (t.setIps B S).ips) := by
  refine ⟨count_remove_calls B S t, fun x hx h => ((mem_remove_calls B S t x).1 h).2 hx, ?_⟩
  intro hOwn hSelf x hx hin
  refine setIps_keeps B S x hx ?_ ?_ t hin
  · intro u y hu
    by_cases hy : y = x
    · subst hy; exact hSelf u y hu
    · exact (hOwn u y x (Ne.symm hy)).1.2 hu
  · intro u y hy hu
    exact (hOwn u y x (Ne.symm hy)).2.2 hu

/-- Scenario S2, second step, under a backend that rejects every `addIP`:
`fd00::2/64`, declared and desired, stays declared. -/
theorem setIps_removes_stale_scenario :
    ip_fd00_2 ∈ s2Second ∧ ip_fd00_2 ∈ (tapWith s2First).ips ∧
    ip_fd00_2 ∈ ((tapWith s2First).setIps
      (Backend.deciding Unit (fun _ => false) (fun _ => true)) s2Second).ips :=
  ⟨by decide, by decide,
   (setIps_removes_stale_once (Backend.deciding Unit (fun _ => false) (fun _ => true))
      s2Second (tapWith s2First)).2.2
     (Backend.ownArgumentOnly_of_decides _ _ _ (deciding_decides Unit _ _))
     (Backend.addKeeps_of_decides _ _ _ (deciding_decides Unit _ _))
     ip_fd00_2 (by decide) (by decide)⟩

/-- C10 fails in its second half: under the deterministic backend that
rejects every `removeIP`, with `10.0.0.2/24` declared, the second of two
`setIps({})` calls issues `removeIP(10.0.0.2/24)` again. -/
theorem setIps_second_call_removes :
    (Backend.deciding Unit (fun _ => true) (fun _ => false)).Decides
      (fun _ => true) (fun _ => false) ∧
    Op.remove ip_10_0_0_2 ∈
      ((tapWith (StdSet.ofList [ip_10_0_0_2])).setIps
        (Backend.deciding Unit (fun _ => true) (fun _ => false)) StdSet.empty).setIpsCalls
        (Backend.deciding Unit (fun _ => true) (fun _ => false)) StdSet.empty :=
  ⟨deciding_decides Unit _ _, by decide⟩

/-- C10, amended: under a backend whose verdict depends only on the call and
its argument, `ips()` after `setIps(S); setIps(S)` equals `ips()` after one
`setIps(S)`; the second call issues `removeIP` exactly for the addresses still
declared and not in `S`, each of which the backend refuses to remove, so it
issues none when the backend accepts every removal. -/
theorem setIps_idempotent_of_decides (B : Backend β) (accAdd accRemove : InetAddress → Bool)
    (hD : B.Decides accAdd accRemove) (S : StdSet InetAddress) (t : EthernetTap β) :
    ((t.setIps B S).setIps B S).ips = (t.setIps B S).ips ∧
    (∀ y, Op.remove y ∈ (t.setIps B S).setIpsCalls B S ↔ y ∈ (t.setIps B S).ips ∧ y ∉ S) ∧
    (∀ y, Op.remove y ∈ (t.setIps B S).setIpsCalls B S → accRemove y = false) ∧
    ((∀ y, accRemove y = true) → ∀ y, Op.remove y ∉ (t.setIps B S).setIpsCalls B S) := by
  have hmem := setIps_mem_of_decides B accAdd accRemove hD S
  have hcalls : ∀ y, Op.remove y ∈ (t.setIps B S).setIpsCalls B S ↔
      y ∈ (t.setIps B S).ips ∧ y ∉ S := by
    intro y
    rw [mem_remove_calls]
    have hadd := addFold_mem_of_decides B accAdd accRemove hD S.elems (t.setIps B S) y
    change y ∈ ((t.setIps B S).addPass B S).ips ↔ _ at hadd
    rw [hadd, ← StdSet.mem_def]
    constructor
    · rintro ⟨h | ⟨h, _⟩, hn⟩
      · exact ⟨h, hn⟩
      · exact absurd h hn
    · rintro ⟨h, hn⟩
      exact ⟨Or.inl h, hn⟩
  have hrej : ∀ y, Op.remove y ∈ (t.setIps B S).setIpsCalls B S → accRemove y = false := by
    intro y hy
    obtain ⟨hin, hn⟩ := (hcalls y).1 hy
    have h2 := ((hmem t y).1 hin).2
    cases hr : accRemove y with
    | false => rfl
    | true => exact absurd ⟨hn, hr⟩ h2
  refine ⟨?_, hcalls, hrej, ?_⟩
  · apply StdSet.ext
    intro y
    rw [hmem (t.setIps B S) y]
    constructor
    · rintro ⟨h | ⟨hs, ha⟩, h2⟩
      · exact h
      · exact (hmem t y).2 ⟨Or.inr ⟨hs, ha⟩, fun h => h.1 hs⟩
    · intro h
      exact ⟨Or.inl h, ((hmem t y).1 h).2⟩
  · intro hall y hy
    have := hrej y hy
    rw [hall y] at this
    cases this

/-- Scenario S2 under a backend that refuses `fd00::2/64` and accepts all
else: repeating the second `setIps` changes nothing. -/
theorem setIps_idempotent_scenario :
    (((tapWith s2First).setIps (Backend.deciding Unit (fun a => a != ip_fd00_2) (fun _ => true))
        s2Second).setIps (Backend.deciding Unit (fun a => a != ip_fd00_2) (fun _ => true))
        s2Second).ips
      = ((tapWith s2First).setIps (Backend.deciding Unit (fun a => a != ip_fd00_2)
          (fun _ => true)) s2Second).ips :=
  (setIps_idempotent_of_decides _ _ _ (deciding_decides Unit _ _) s2Second (tapWith s2First)).1

end EthernetTap

/-- C8: for every input set of groups, the empty one included, and whatever
groups the kernel reports, the set left by `updateMulticastGroups` contains
the wildcard group, whose MAC is `ff:ff:ff:ff:ff:ff` and whose ADI is 0. -/
theorem updateMulticastGroups_has_wildcard (v4 v6 : List Nat)
    (groups : StdSet MulticastGroup) :
    wildcardGroup ∈ (updateMulticastGroups v4 v6 groups).2 ∧
    wildcardGroup.mac.value = 0xffffffffffff ∧ wildcardGroup.adi = 0 := by
  refine ⟨?_, rfl, rfl⟩
  show wildcardGroup ∈ StdSet.ofList _
  rw [StdSet.mem_ofList]
  exact List.mem_cons_self _ _

end ZeroTier
